import Mathlib

/-!
Verification development for the room state cache of `matrix/rooms/room.go`
(gomuks). The Go code is shallowly embedded: the per-room structure `Room`
is a Lean structure, Go maps become association lists whose list order
stands for one admissible iteration order of the (order-unspecified) Go
map, Go methods that mutate the receiver become functions `Room → Room`,
and code paths that fault at run time (nil-pointer dereference, unlocking
an unlocked mutex) return `Option` with `none` for the fault.
-/

set_option maxRecDepth 4000

/-- A loosely typed content value, embedding Go's `interface{}` as stored in
`Event.Content`. Only string values and arrays are ever inspected by the
code; every other shape is `other`. -/
inductive Value where
  | str (s : String) : Value
  | arr (elems : List Value) : Value
  | other : Value

/-- Embedding of `gomatrix.Event` restricted to the fields the room code
reads: `Type`, `*StateKey` and `Content`. -/
structure Event where
  type : String
  stateKey : String
  content : List (String × Value)

/-- Embedding of `rooms.Member` (declared in member.go, outside the given
sources): user ID, display name and membership, per spec section 3. -/
structure Member where
  UserID : String
  DisplayName : String
  Membership : String

/-- Go's `v, _ := x.(string)` on a map lookup result: a missing key or a
non-string value yields the empty string. -/
def strOrEmpty : Option Value → String
  | some (Value.str s) => s
  | _ => ""

/-- Go's `v, _ := x.([]interface{})` on a map lookup result: a missing key
or a non-array value yields the nil (empty) slice. -/
def arrOrNil : Option Value → List Value
  | some (Value.arr l) => l
  | _ => []

/-- Go's `s, _ := v.(string)` on an already-extracted value. -/
def valueStr : Value → String
  | Value.str s => s
  | _ => ""

/-- Association-list lookup, embedding `v, _ := m[k]` on a Go map (also on
a nil map, where the list is empty). -/
def alGet {α : Type} : List (String × α) → String → Option α
  | [], _ => none
  | (k2, v) :: rest, k => if k2 = k then some v else alGet rest k

/-- Association-list insertion/replacement, embedding `m[k] = v` on a Go
map: replaces the existing entry for `k` or appends a new one. -/
def alSet {α : Type} : List (String × α) → String → α → List (String × α)
  | [], k, v => [(k, v)]
  | (k2, v2) :: rest, k, v =>
      if k2 = k then (k, v) :: rest else (k2, v2) :: alSet rest k v

/-- Inner map of the state table: state key → event. -/
abbrev EventMap := List (String × Event)

/-- `gomatrix.Room.State`: event type → state key → latest event. -/
abbrev StateTable := List (String × EventMap)

/-- Member cache: user ID → member. -/
abbrev MemberMap := List (String × Member)

/-- Embedding of `rooms.Room` (the sequential fields; the history-fetch
mutex is modelled separately as a labelled transition system, since its
behaviour is only observable under concurrency). -/
structure Room where
  ID : String
  State : StateTable
  PrevBatch : String
  SessionUserID : String
  UnreadMessages : Int
  Highlighted : Bool
  HasNewMessages : Bool
  memberCache : MemberMap
  firstMemberCache : String
  nameCache : String
  topicCache : String

/-- Modelled from the spec: `eventToRoomMember` lives in member.go, which
is not among the given sources. Per spec section 3, a `Member` is built
from an `m.room.member` state event and carries the user ID together with
the display name and membership read from the event content. -/
def eventToRoomMember (userID : String) (event : Event) : Member :=
  { UserID := userID
    DisplayName := strOrEmpty (alGet event.content "displayname")
    Membership := strOrEmpty (alGet event.content "membership") }

/-- `Room.MarkRead`: clears the new message statuses on this room. -/
def MarkRead (room : Room) : Room :=
  { room with UnreadMessages := 0, Highlighted := false, HasNewMessages := false }

/-- `Room.UpdateState`: updates the room's current state with the given
event, clobbering on the (type, state key) combination, after running the
cache-invalidation switch (with its fallthrough chain) on the event type. -/
def UpdateState (room : Room) (event : Event) : Room :=
  let room :=
    if event.type = "m.room.member" then
      { room with memberCache := [], firstMemberCache := "", nameCache := "" }
    else if event.type = "m.room.name" then { room with nameCache := "" }
    else if event.type = "m.room.canonical_alias" then { room with nameCache := "" }
    else if event.type = "m.room.alias" then { room with nameCache := "" }
    else if event.type = "m.room.topic" then { room with topicCache := "" }
    else room
  { room with
      State := alSet room.State event.type
        (alSet ((alGet room.State event.type).getD []) event.stateKey event) }

/-- `Room.GetStateEvent`: the state event for the given type/state-key
combo, or nil. -/
def GetStateEvent (room : Room) (eventType : String) (stateKey : String) : Option Event :=
  (alGet room.State eventType).bind (fun m => alGet m stateKey)

/-- `Room.GetStateEvents`: the state events for the given type (`none`
embeds the nil map returned for a missing type). -/
def GetStateEvents (room : Room) (eventType : String) : Option EventMap :=
  alGet room.State eventType

/-- `Room.GetTopic`: returns the topic, filling the topic cache from the
`m.room.topic` state event when the cache is empty. Returns the value
together with the (possibly updated) room. -/
def GetTopic (room : Room) : String × Room :=
  if room.topicCache.length = 0 then
    match GetStateEvent room "m.room.topic" "" with
    | none => (room.topicCache, room)
    | some evt =>
        let room := { room with topicCache := strOrEmpty (alGet evt.content "topic") }
        (room.topicCache, room)
  else (room.topicCache, room)

/-- `Room.updateNameFromNameEvent`. -/
def updateNameFromNameEvent (room : Room) : Room :=
  match GetStateEvent room "m.room.name" "" with
  | none => room
  | some nameEvt => { room with nameCache := strOrEmpty (alGet nameEvt.content "name") }

/-- `Room.updateNameFromCanonicalAlias`. -/
def updateNameFromCanonicalAlias (room : Room) : Room :=
  match GetStateEvent room "m.room.canonical_alias" "" with
  | none => room
  | some evt => { room with nameCache := strOrEmpty (alGet evt.content "alias") }

/-- The `for ... range` loop body of `updateNameFromAliases`: take the
first event whose `aliases` array is non-empty, write its first entry
(string-asserted) to the name cache, and break. -/
def aliasLoop (room : Room) : EventMap → Room
  | [] => room
  | (_, event) :: rest =>
      match arrOrNil (alGet event.content "aliases") with
      | [] => aliasLoop room rest
      | a :: _ => { room with nameCache := valueStr a }

/-- `Room.updateNameFromAliases` (deprecated fallback kept for Riot
compatibility, reading `m.room.aliases`). -/
def updateNameFromAliases (room : Room) : Room :=
  match GetStateEvents room "m.room.aliases" with
  | none => room
  | some aliasEvents => aliasLoop room aliasEvents

/-- The `for userID, event := range events` loop of `createMemberCache`:
records the first user ID different from the session user (before any
membership check) and inserts every non-leave member into the cache. -/
def buildMemberCache (sess : String) :
    EventMap → String → MemberMap → String × MemberMap
  | [], first, cache => (first, cache)
  | (userID, event) :: rest, first, cache =>
      let first := if first.length = 0 ∧ userID ≠ sess then userID else first
      let member := eventToRoomMember userID event
      let cache :=
        if member.Membership ≠ "leave" then alSet cache member.UserID member else cache
      buildMemberCache sess rest first cache

/-- `Room.createMemberCache`: caches all member events into an
MXID → Member map and records `firstMemberCache`. -/
def createMemberCache (room : Room) : Room :=
  let res :=
    match GetStateEvents room "m.room.member" with
    | none => ("", ([] : MemberMap))
    | some events => buildMemberCache room.SessionUserID events "" []
  { room with firstMemberCache := res.1, memberCache := res.2 }

/-- `Room.GetMembers`: the member cache, rebuilt first when empty.
Returns the members together with the (possibly updated) room. -/
def GetMembers (room : Room) : MemberMap × Room :=
  let room := if room.memberCache.length = 0 then createMemberCache room else room
  (room.memberCache, room)

/-- `Room.GetMember`: the member with the given MXID, or nil; rebuilds the
cache first when it is empty. -/
def GetMember (room : Room) (userID : String) : Option Member × Room :=
  let room := if room.memberCache.length = 0 then createMemberCache room else room
  (alGet room.memberCache userID, room)

/-- `Room.GetSessionOwner`. -/
def GetSessionOwner (room : Room) : Option Member × Room :=
  GetMember room room.SessionUserID

/-- `Room.updateNameFromMembers`. The map access
`members[room.firstMemberCache].DisplayName` dereferences the looked-up
pointer; when the key is absent the pointer is nil and the dereference is
a run-time fault, embedded as `none`. -/
def updateNameFromMembers (room : Room) : Option Room :=
  let p := GetMembers room
  let members := p.1
  let room := p.2
  if members.length ≤ 1 then some { room with nameCache := "Empty room" }
  else
    match alGet members room.firstMemberCache with
    | none => none
    | some m =>
        if members.length = 2 then some { room with nameCache := m.DisplayName }
        else some { room with nameCache :=
          m.DisplayName ++ " and " ++ toString (members.length - 2) ++ " others" }

/-- `Room.updateNameCache`: the ordered resolution chain, each stage
running only while the name cache is still empty. -/
def updateNameCache (room : Room) : Option Room :=
  let room := if room.nameCache.length = 0 then updateNameFromNameEvent room else room
  let room := if room.nameCache.length = 0 then updateNameFromCanonicalAlias room else room
  let room := if room.nameCache.length = 0 then updateNameFromAliases room else room
  if room.nameCache.length = 0 then updateNameFromMembers room else some room

/-- `Room.GetTitle`: returns the display name from the cache, updating the
cache first; `none` embeds the run-time fault reachable through
`updateNameFromMembers`. -/
def GetTitle (room : Room) : Option (String × Room) :=
  (updateNameCache room).map (fun r => (r.nameCache, r))

/-- `rooms.NewRoom`: a fresh room with the given ID and session owner (the
embedded `gomatrix.Room` starts with an empty state table). -/
def NewRoom (roomID : String) (owner : String) : Room :=
  { ID := roomID
    State := []
    PrevBatch := ""
    SessionUserID := owner
    UnreadMessages := 0
    Highlighted := false
    HasNewMessages := false
    memberCache := []
    firstMemberCache := ""
    nameCache := ""
    topicCache := "" }

/-! ## Association-list lemmas -/

theorem alGet_alSet_self {α : Type} (l : List (String × α)) (k : String) (v : α) :
    alGet (alSet l k v) k = some v := by
  induction l with
  | nil => simp [alSet, alGet]
  | cons p rest ih =>
      obtain ⟨k2, v2⟩ := p
      by_cases h : k2 = k <;> simp [alSet, alGet, h, ih]

theorem alGet_alSet_ne {α : Type} (l : List (String × α)) (k k2 : String) (v : α)
    (h : k ≠ k2) : alGet (alSet l k v) k2 = alGet l k2 := by
  induction l with
  | nil => simp [alSet, alGet, h]
  | cons p rest ih =>
      obtain ⟨k3, v3⟩ := p
      by_cases h3 : k3 = k
      · subst h3
        simp [alSet, alGet, h]
      · simp [alSet, alGet, h3, ih]

theorem alSet_mem {α : Type} (l : List (String × α)) (k : String) (v : α)
    (p : String × α) (h : p ∈ alSet l k v) : p = (k, v) ∨ p ∈ l := by
  induction l with
  | nil => simpa [alSet] using h
  | cons q rest ih =>
      obtain ⟨k2, v2⟩ := q
      by_cases h2 : k2 = k
      · simp [alSet, h2] at h
        rcases h with h | h
        · exact Or.inl (by simp [h])
        · exact Or.inr (by simp [h])
      · simp [alSet, h2] at h
        rcases h with h | h
        · exact Or.inr (by simp [h])
        · rcases ih h with h | h
          · exact Or.inl h
          · exact Or.inr (by simp [h])

theorem alSet_keys_nodup {α : Type} (l : List (String × α)) (k : String) (v : α)
    (h : (l.map Prod.fst).Nodup) : ((alSet l k v).map Prod.fst).Nodup := by
  induction l with
  | nil => simp [alSet]
  | cons q rest ih =>
      obtain ⟨k2, v2⟩ := q
      rw [List.map_cons, List.nodup_cons] at h
      obtain ⟨hnot, hrest⟩ := h
      by_cases h2 : k2 = k
      · subst h2
        have heq : alSet ((k2, v2) :: rest) k2 v = (k2, v) :: rest := by simp [alSet]
        rw [heq, List.map_cons, List.nodup_cons]
        exact ⟨hnot, hrest⟩
      · have hrec := ih hrest
        have hnotin : k2 ∉ (alSet rest k v).map Prod.fst := by
          intro hmem
          rw [List.mem_map] at hmem
          obtain ⟨p, hp, hfst⟩ := hmem
          subst hfst
          rcases alSet_mem rest k v p hp with hpk | hp2
          · exact h2 (by rw [hpk])
          · exact hnot (List.mem_map.mpr ⟨p, hp2, rfl⟩)
        have heq : alSet ((k2, v2) :: rest) k v = (k2, v2) :: alSet rest k v := by
          simp [alSet, h2]
        rw [heq, List.map_cons, List.nodup_cons]
        exact ⟨hnotin, hrec⟩

theorem alGet_mem {α : Type} (l : List (String × α)) (k : String) (v : α)
    (h : alGet l k = some v) : (k, v) ∈ l := by
  induction l with
  | nil => simp [alGet] at h
  | cons q rest ih =>
      obtain ⟨k2, v2⟩ := q
      by_cases h2 : k2 = k
      · subst h2
        simp [alGet] at h
        simp [h]
      · simp [alGet, h2] at h
        simp [ih h]

/-! ## State-table well-formedness -/

/-- At most one entry per key, at both levels of the state table. -/
def tableNodup (st : StateTable) : Prop :=
  (st.map Prod.fst).Nodup ∧ ∀ p ∈ st, ((p.2 : EventMap).map Prod.fst).Nodup

/-- C7: `UpdateState` clobbers on the (type, stateKey) pair: a subsequent
`GetStateEvent` for that pair returns exactly the event just applied, and
key uniqueness of the state table (at most one retained event per pair)
is preserved. -/
theorem c7_clobber_semantics (room : Room) (e : Event) :
    GetStateEvent (UpdateState room e) e.type e.stateKey = some e ∧
    (tableNodup room.State → tableNodup (UpdateState room e).State) := by
  have hState : (UpdateState room e).State =
      alSet room.State e.type
        (alSet ((alGet room.State e.type).getD []) e.stateKey e) := by
    show ((UpdateState room e)).State = _
    unfold UpdateState
    split
    · rfl
    · split
      · rfl
      · split
        · rfl
        · split
          · rfl
          · split <;> rfl
  constructor
  · rw [GetStateEvent, hState, alGet_alSet_self]
    simp [alGet_alSet_self]
  · intro h
    rw [hState]
    refine ⟨alSet_keys_nodup _ _ _ h.1, ?_⟩
    intro p hp
    rcases alSet_mem _ _ _ p hp with hpk | hp2
    · subst hpk
      apply alSet_keys_nodup
      cases hget : alGet room.State e.type with
      | none => simp
      | some m => simpa using h.2 (e.type, m) (alGet_mem _ _ _ hget)
    · exact h.2 p hp2

/-- A room with one existing topic event, used to instantiate C7. -/
def roomC7 : Room :=
  { NewRoom "!c7" "@s" with
    State := [("m.room.topic",
      [("", { type := "m.room.topic", stateKey := "",
              content := [("topic", Value.str "old")] })])] }

/-- The replacement event applied in the C7 witness. -/
def eventC7 : Event :=
  { type := "m.room.topic", stateKey := "", content := [("topic", Value.str "new")] }

/-- Witness for C7 at a concrete room and event. -/
theorem c7_clobber_semantics_witness :
    GetStateEvent (UpdateState roomC7 eventC7) "m.room.topic" "" = some eventC7 ∧
    tableNodup (UpdateState roomC7 eventC7).State := by
  have h := c7_clobber_semantics roomC7 eventC7
  exact ⟨h.1, h.2 (by constructor <;> decide)⟩

/-- C10: `MarkRead` zeroes the three notification fields and leaves every
other field of the room unchanged. -/
theorem c10_markread_frame (room : Room) :
    (MarkRead room).UnreadMessages = 0 ∧
    (MarkRead room).Highlighted = false ∧
    (MarkRead room).HasNewMessages = false ∧
    (MarkRead room).ID = room.ID ∧
    (MarkRead room).State = room.State ∧
    (MarkRead room).PrevBatch = room.PrevBatch ∧
    (MarkRead room).SessionUserID = room.SessionUserID ∧
    (MarkRead room).memberCache = room.memberCache ∧
    (MarkRead room).firstMemberCache = room.firstMemberCache ∧
    (MarkRead room).nameCache = room.nameCache ∧
    (MarkRead room).topicCache = room.topicCache :=
  ⟨rfl, rfl, rfl, rfl, rfl, rfl, rfl, rfl, rfl, rfl, rfl⟩

/-! ## The history-fetch guard: release -/

/-- Model of `Room.UnlockHistory`. The guard state is `none` when
`fetchHistoryLock` is nil, `some b` when the mutex exists with held-flag
`b`. Per the `sync` package contract, `Mutex.Unlock` on a mutex that is
not locked is a run-time error, embedded as `none` in the result. -/
def UnlockHistory : Option Bool → Option (Option Bool)
  | none => some none
  | some true => some (some false)
  | some false => none

/-- C6 counterexample: releasing a guard that was created but is currently
free is a run-time fault (`sync: unlock of unlocked mutex`), not a silent
no-op as the claim states. -/
theorem c6_counterexample : UnlockHistory (some false) = none := rfl

/-- C6 (amended): `UnlockHistory` is a silent no-op exactly when the guard
was never created; on a held guard it frees it, and on a created-but-free
guard it faults. -/
theorem c6_unlock_semantics (g : Option Bool) :
    (UnlockHistory g = some g ↔ g = none) ∧
    UnlockHistory (some true) = some (some false) ∧
    UnlockHistory (some false) = none := by
  refine ⟨?_, rfl, rfl⟩
  cases g with
  | none => simp [UnlockHistory]
  | some b => cases b <;> simp [UnlockHistory]

/-! ## Concrete rooms exhibiting the member-cache and invalidation bugs -/

/-- An `m.room.member` event with membership `leave`. -/
def leaveMemberEvent (u : String) : Event :=
  { type := "m.room.member", stateKey := u,
    content := [("membership", Value.str "leave"), ("displayname", Value.str "Gone")] }

/-- An `m.room.member` event with membership `join` and the given display
name. -/
def joinMemberEvent (u nm : String) : Event :=
  { type := "m.room.member", stateKey := u,
    content := [("membership", Value.str "join"), ("displayname", Value.str nm)] }

/-- A room whose only member event is a single left (non-session) user. -/
def roomC1 : Room :=
  { NewRoom "!c1" "@session:example.com" with
    State := [("m.room.member",
      [("@left:example.com", leaveMemberEvent "@left:example.com")])] }

/-- C1: evaluation of `createMemberCache` at `roomC1`. The rebuild records
the left user as `firstMemberCache` even though their membership is
"leave" and they are excluded from `memberCache`, contradicting the
claimed mutual-consistency invariant. -/
theorem c1_first_member_leave_bug :
    (createMemberCache roomC1).firstMemberCache = "@left:example.com" ∧
    alGet (createMemberCache roomC1).memberCache "@left:example.com" = none ∧
    (createMemberCache roomC1).memberCache = [] ∧
    (eventToRoomMember "@left:example.com"
        (leaveMemberEvent "@left:example.com")).Membership = "leave" :=
  ⟨rfl, rfl, rfl, rfl⟩

/-- An `m.room.aliases` event for server `example.com` carrying the given
alias list. -/
def aliasesEvent (als : List String) : Event :=
  { type := "m.room.aliases", stateKey := "example.com",
    content := [("aliases", Value.arr (als.map Value.str))] }

/-- A room whose title cache was resolved from an `m.room.aliases` event. -/
def roomC2 : Room :=
  { NewRoom "!c2" "@session:example.com" with
    State := [("m.room.aliases", [("example.com", aliasesEvent ["#old:example.com"])])],
    nameCache := "#old:example.com" }

/-- C2: evaluation of `UpdateState` at an `m.room.aliases` event. The
invalidation switch matches the type string "m.room.alias", not the
"m.room.aliases" type that title resolution reads, so the stale non-empty
title cache survives: the title stays "#old:example.com" although
resolving from scratch yields "#new:example.com". -/
theorem c2_alias_invalidation_bug :
    (UpdateState roomC2 (aliasesEvent ["#new:example.com"])).nameCache
        = "#old:example.com" ∧
    (GetTitle (UpdateState roomC2 (aliasesEvent ["#new:example.com"]))).map Prod.fst
        = some "#old:example.com" ∧
    (GetTitle { UpdateState roomC2 (aliasesEvent ["#new:example.com"])
        with nameCache := "" }).map Prod.fst = some "#new:example.com" :=
  ⟨rfl, rfl, rfl⟩

/-- A room where the first member event in iteration order is a left user
and two joined members (the session user and one other) remain. -/
def roomC4 : Room :=
  { NewRoom "!c4" "@session:example.com" with
    State := [("m.room.member",
      [("@quit:example.com", leaveMemberEvent "@quit:example.com"),
       ("@carol:example.com", joinMemberEvent "@carol:example.com" "Carol"),
       ("@session:example.com", joinMemberEvent "@session:example.com" "Me")])] }

/-- C4: evaluation of `GetTitle` at `roomC4`. The rebuilt member cache has
two entries, yet the lookup at `firstMemberCache` (the left user) yields
nil, and the display-name dereference in `updateNameFromMembers` is a
run-time fault (`none`): `GetTitle` is not total. -/
theorem c4_gettitle_fault_bug :
    (createMemberCache roomC4).memberCache.length = 2 ∧
    alGet (createMemberCache roomC4).memberCache
        (createMemberCache roomC4).firstMemberCache = none ∧
    GetTitle roomC4 = none :=
  ⟨rfl, rfl, rfl⟩

/-- A room with an empty title cache, exactly two remaining members (the
session user and one other), and a left user first in iteration order. -/
def roomC3 : Room :=
  { NewRoom "!c3" "@me:example.com" with
    State := [("m.room.member",
      [("@gone:example.com", leaveMemberEvent "@gone:example.com"),
       ("@yves:example.com", joinMemberEvent "@yves:example.com" "Yves"),
       ("@me:example.com", joinMemberEvent "@me:example.com" "Self")])] }

/-- C3 counterexample: with the title cache empty and exactly two members
in the (rebuilt) member cache, the claim promises the other member's
display name ("Yves"), but `GetTitle` reaches the faulting member-count
fallback and produces no string at all. -/
theorem c3_counterexample :
    roomC3.nameCache = "" ∧
    (GetMembers roomC3).1.length = 2 ∧
    GetTitle roomC3 = none :=
  ⟨rfl, rfl, rfl⟩

/-! ## Absent lookups (C9) -/

theorem buildMemberCache_absent (sess u : String) (evs : EventMap)
    (first : String) (cache : MemberMap)
    (hc : alGet cache u = none)
    (h : ∀ ev, (u, ev) ∈ evs → (eventToRoomMember u ev).Membership = "leave") :
    alGet (buildMemberCache sess evs first cache).2 u = none := by
  induction evs generalizing first cache with
  | nil => simpa [buildMemberCache] using hc
  | cons p rest ih =>
      obtain ⟨uid, ev⟩ := p
      simp only [buildMemberCache]
      apply ih
      · by_cases huid : uid = u
        · subst huid
          have hlv := h ev (List.mem_cons_self _ _)
          simp [hlv, hc]
        · by_cases hlv : (eventToRoomMember uid ev).Membership ≠ "leave"
          · rw [if_pos hlv]
            show alGet (alSet cache uid (eventToRoomMember uid ev)) u = none
            rw [alGet_alSet_ne cache uid u _ huid]
            exact hc
          · simpa [hlv] using hc
      · intro ev2 hmem
        exact h ev2 (List.mem_cons_of_mem _ hmem)

/-- C9: lookups report absence rather than failing. A missing event type
yields nil from both `GetStateEvents` and `GetStateEvent`; a missing state
key yields nil from `GetStateEvent`; and `GetMember`, after rebuilding an
empty member cache, yields nil for a user all of whose member events (if
any) carry membership "leave". -/
theorem c9_absent_results (room : Room) (t k u : String) :
    (alGet room.State t = none →
      GetStateEvents room t = none ∧ GetStateEvent room t k = none) ∧
    (∀ m, alGet room.State t = some m → alGet m k = none →
      GetStateEvent room t k = none) ∧
    (room.memberCache = [] →
      (∀ ev, (u, ev) ∈ ((GetStateEvents room "m.room.member").getD []) →
        (eventToRoomMember u ev).Membership = "leave") →
      (GetMember room u).1 = none) := by
  refine ⟨?_, ?_, ?_⟩
  · intro h
    exact ⟨h, by simp [GetStateEvent, h]⟩
  · intro m hm hk
    simp [GetStateEvent, hm, hk]
  · intro hmc h
    have hlen : room.memberCache.length = 0 := by simp [hmc]
    simp only [GetMember, hlen, if_pos rfl]
    show alGet (createMemberCache room).memberCache u = none
    unfold createMemberCache
    cases hev : GetStateEvents room "m.room.member" with
    | none => simp [alGet]
    | some evs =>
        simp only []
        apply buildMemberCache_absent
        · simp [alGet]
        · intro ev hmem
          apply h
          rw [hev]
          simpa using hmem

/-- A room whose only member event is a left user, used to instantiate C9. -/
def roomC9 : Room :=
  { NewRoom "!c9" "@s9:example.com" with
    State := [("m.room.member",
      [("@l9:example.com", leaveMemberEvent "@l9:example.com")])] }

/-- Witness for C9: a missing type, a missing key and a left user all
yield nil at a concrete room. -/
theorem c9_absent_results_witness :
    (GetStateEvents roomC9 "m.room.name" = none ∧
      GetStateEvent roomC9 "m.room.name" "" = none) ∧
    GetStateEvent roomC9 "m.room.member" "@nobody:example.com" = none ∧
    (GetMember roomC9 "@l9:example.com").1 = none := by
  have h1 := c9_absent_results roomC9 "m.room.name" "" "@l9:example.com"
  have h2 := c9_absent_results roomC9 "m.room.member" "@nobody:example.com" "@l9:example.com"
  refine ⟨h1.1 rfl,
    h2.2.1 [("@l9:example.com", leaveMemberEvent "@l9:example.com")] rfl rfl,
    h1.2.2 rfl ?_⟩
  intro ev hmem
  have hm : ((GetStateEvents roomC9 "m.room.member").getD [])
      = [("@l9:example.com", leaveMemberEvent "@l9:example.com")] := rfl
  rw [hm] at hmem
  cases hmem with
  | head => rfl
  | tail b h => cases h

/-! ## Title resolution: pure candidates and stage characterizations -/

/-- The string the name-event stage would write: the `name` field of the
`m.room.name` event, when that event exists. -/
def nameCandidate (room : Room) : Option String :=
  (GetStateEvent room "m.room.name" "").map
    (fun evt => strOrEmpty (alGet evt.content "name"))

/-- The string the canonical-alias stage would write. -/
def canonicalAliasCandidate (room : Room) : Option String :=
  (GetStateEvent room "m.room.canonical_alias" "").map
    (fun evt => strOrEmpty (alGet evt.content "alias"))

/-- The string the alias-loop stage would write: the first entry of the
first non-empty `aliases` array in iteration order. -/
def aliasListCandidate : EventMap → Option String
  | [] => none
  | (_, event) :: rest =>
      match arrOrNil (alGet event.content "aliases") with
      | [] => aliasListCandidate rest
      | a :: _ => some (valueStr a)

/-- The string the `m.room.aliases` stage would write, when any. -/
def aliasCandidate (room : Room) : Option String :=
  (GetStateEvents room "m.room.aliases").bind aliasListCandidate

/-- The member-count fallback of the title resolution, as a pure function
of the member map and the recorded first other member; `none` is the
run-time fault when the recorded user is absent from the map. -/
def memberFallback (members : MemberMap) (first : String) : Option String :=
  if members.length ≤ 1 then some "Empty room"
  else
    match alGet members first with
    | none => none
    | some m =>
        if members.length = 2 then some m.DisplayName
        else some (m.DisplayName ++ " and " ++ toString (members.length - 2) ++ " others")

theorem string_length_zero_iff (s : String) : s.length = 0 ↔ s = "" := by
  cases s with
  | mk data =>
      cases data with
      | nil => simp
      | cons c cs =>
        constructor
        · intro h
          simp [String.length] at h
        · intro h
          have hd := congrArg String.data h
          simp at hd

theorem updateNameFromNameEvent_eq (room : Room) :
    updateNameFromNameEvent room =
      match nameCandidate room with
      | none => room
      | some v => { room with nameCache := v } := by
  unfold updateNameFromNameEvent nameCandidate
  cases GetStateEvent room "m.room.name" "" <;> rfl

theorem updateNameFromCanonicalAlias_eq (room : Room) :
    updateNameFromCanonicalAlias room =
      match canonicalAliasCandidate room with
      | none => room
      | some v => { room with nameCache := v } := by
  unfold updateNameFromCanonicalAlias canonicalAliasCandidate
  cases GetStateEvent room "m.room.canonical_alias" "" <;> rfl

theorem aliasLoop_eq (room : Room) (evs : EventMap) :
    aliasLoop room evs =
      match aliasListCandidate evs with
      | none => room
      | some v => { room with nameCache := v } := by
  induction evs with
  | nil => rfl
  | cons p rest ih =>
      obtain ⟨k, event⟩ := p
      simp only [aliasLoop, aliasListCandidate]
      cases arrOrNil (alGet event.content "aliases") with
      | nil => exact ih
      | cons a as => rfl

theorem updateNameFromAliases_eq (room : Room) :
    updateNameFromAliases room =
      match aliasCandidate room with
      | none => room
      | some v => { room with nameCache := v } := by
  unfold updateNameFromAliases aliasCandidate
  cases GetStateEvents room "m.room.aliases" with
  | none => rfl
  | some evs => simpa using aliasLoop_eq room evs

theorem updateNameFromMembers_eq (room : Room) :
    updateNameFromMembers room =
      (memberFallback (GetMembers room).1 (GetMembers room).2.firstMemberCache).map
        (fun v => { (GetMembers room).2 with nameCache := v }) := by
  unfold updateNameFromMembers memberFallback
  by_cases h1 : (GetMembers room).1.length ≤ 1
  · simp [h1]
  · simp only [h1, if_neg, if_false]
    cases alGet (GetMembers room).1 (GetMembers room).2.firstMemberCache with
    | none => simp
    | some m =>
        by_cases h2 : (GetMembers room).1.length = 2 <;> simp [h2]

theorem room_set_nameCache_self (room : Room) (h : room.nameCache = "") :
    { room with nameCache := "" } = room := by
  cases room
  simp_all

theorem updateNameCache_of_ne (room : Room) (h : room.nameCache ≠ "") :
    updateNameCache room = some room := by
  have h0 : ¬ room.nameCache.length = 0 := by
    intro hl
    exact h ((string_length_zero_iff room.nameCache).mp hl)
  unfold updateNameCache
  simp [h0]


theorem updateNameCache_empty_cases (room : Room) (h : room.nameCache = "") :
    updateNameCache room =
      (if ((nameCandidate room).getD "").length = 0 then
        if ((canonicalAliasCandidate room).getD "").length = 0 then
          if ((aliasCandidate room).getD "").length = 0 then updateNameFromMembers room
          else some { room with nameCache := (aliasCandidate room).getD "" }
        else some { room with nameCache := (canonicalAliasCandidate room).getD "" }
      else some { room with nameCache := (nameCandidate room).getD "" }) := by
  have h0 : room.nameCache.length = 0 := by rw [h]; rfl
  have hself : { room with nameCache := "" } = room := room_set_nameCache_self room h
  unfold updateNameCache
  rw [updateNameFromNameEvent_eq]
  rcases hn1 : nameCandidate room with _ | v1
  · rcases hn2 : canonicalAliasCandidate room with _ | v2
    · rcases hn3 : aliasCandidate room with _ | v3
      · simp [h0, hn2, hn3, updateNameFromCanonicalAlias_eq, updateNameFromAliases_eq]
      · by_cases hv3 : v3.length = 0
        · obtain rfl : v3 = "" := (string_length_zero_iff v3).mp hv3
          simp [h0, hn2, hn3, hself, updateNameFromCanonicalAlias_eq, updateNameFromAliases_eq]
        · simp [h0, hn2, hn3, hv3, updateNameFromCanonicalAlias_eq, updateNameFromAliases_eq]
    · by_cases hv2 : v2.length = 0
      · obtain rfl : v2 = "" := (string_length_zero_iff v2).mp hv2
        rcases hn3 : aliasCandidate room with _ | v3
        · simp [h0, hn2, hn3, hself, updateNameFromCanonicalAlias_eq, updateNameFromAliases_eq]
        · by_cases hv3 : v3.length = 0
          · obtain rfl : v3 = "" := (string_length_zero_iff v3).mp hv3
            simp [h0, hn2, hn3, hself, updateNameFromCanonicalAlias_eq, updateNameFromAliases_eq]
          · simp [h0, hn2, hn3, hv3, hself, updateNameFromCanonicalAlias_eq, updateNameFromAliases_eq]
      · simp [h0, hn2, hv2, updateNameFromCanonicalAlias_eq]
  · by_cases hv1 : v1.length = 0
    · obtain rfl : v1 = "" := (string_length_zero_iff v1).mp hv1
      rcases hn2 : canonicalAliasCandidate room with _ | v2
      · rcases hn3 : aliasCandidate room with _ | v3
        · simp [h0, hn2, hn3, hself, updateNameFromCanonicalAlias_eq, updateNameFromAliases_eq]
        · by_cases hv3 : v3.length = 0
          · obtain rfl : v3 = "" := (string_length_zero_iff v3).mp hv3
            simp [h0, hn2, hn3, hself, updateNameFromCanonicalAlias_eq, updateNameFromAliases_eq]
          · simp [h0, hn2, hn3, hv3, hself, updateNameFromCanonicalAlias_eq, updateNameFromAliases_eq]
      · by_cases hv2 : v2.length = 0
        · obtain rfl : v2 = "" := (string_length_zero_iff v2).mp hv2
          rcases hn3 : aliasCandidate room with _ | v3
          · simp [h0, hn2, hn3, hself, updateNameFromCanonicalAlias_eq, updateNameFromAliases_eq]
          · by_cases hv3 : v3.length = 0
            · obtain rfl : v3 = "" := (string_length_zero_iff v3).mp hv3
              simp [h0, hn2, hn3, hself, updateNameFromCanonicalAlias_eq, updateNameFromAliases_eq]
            · simp [h0, hn2, hn3, hv3, hself, updateNameFromCanonicalAlias_eq, updateNameFromAliases_eq]
        · simp [h0, hn2, hv2, hself, updateNameFromCanonicalAlias_eq]
    · simp [h0, hv1]

theorem nameCandidate_congr (r r2 : Room) (h : r2.State = r.State) :
    nameCandidate r2 = nameCandidate r := by
  unfold nameCandidate GetStateEvent
  rw [h]

theorem canonicalAliasCandidate_congr (r r2 : Room) (h : r2.State = r.State) :
    canonicalAliasCandidate r2 = canonicalAliasCandidate r := by
  unfold canonicalAliasCandidate GetStateEvent
  rw [h]

theorem aliasCandidate_congr (r r2 : Room) (h : r2.State = r.State) :
    aliasCandidate r2 = aliasCandidate r := by
  unfold aliasCandidate GetStateEvents
  rw [h]

theorem getMembers_fst_eq (room : Room) :
    (GetMembers room).1 = (GetMembers room).2.memberCache := rfl

theorem getMembers_nameCache (room : Room) :
    (GetMembers room).2.nameCache = room.nameCache := by
  unfold GetMembers
  by_cases hc : room.memberCache.length = 0 <;> simp [hc, createMemberCache]

theorem getMembers_State (room : Room) :
    (GetMembers room).2.State = room.State := by
  unfold GetMembers
  by_cases hc : room.memberCache.length = 0 <;> simp [hc, createMemberCache]

theorem getMembers_of_nonempty (room : Room) (h : ¬ room.memberCache.length = 0) :
    GetMembers room = (room.memberCache, room) := by
  unfold GetMembers
  simp [h]

/-- The title-resolution precedence as the (amended) spec describes it:
the name field, else the canonical-alias field, else the first entry of
the first non-empty aliases array, else the member-count fallback —
stopping at the first non-empty result, where the fallback faults
(`none`) when the recorded first other member is absent from the member
cache. -/
def titleSpec (room : Room) : Option String :=
  if ((nameCandidate room).getD "").length = 0 then
    if ((canonicalAliasCandidate room).getD "").length = 0 then
      if ((aliasCandidate room).getD "").length = 0 then
        memberFallback (GetMembers room).1 (GetMembers room).2.firstMemberCache
      else some ((aliasCandidate room).getD "")
    else some ((canonicalAliasCandidate room).getD "")
  else some ((nameCandidate room).getD "")

/-- C3 (amended): with an empty title cache, `GetTitle` implements the
ordered precedence `titleSpec` — name event, canonical alias, first
alias, member-count fallback — stopping at the first non-empty result,
with the member fallback faulting when `firstMemberCache` is not in the
member cache. -/
theorem c3_title_precedence (room : Room) (h : room.nameCache = "") :
    (GetTitle room).map Prod.fst = titleSpec room := by
  rw [GetTitle, updateNameCache_empty_cases room h]
  unfold titleSpec
  by_cases h1 : ((nameCandidate room).getD "").length = 0
  · rw [if_pos h1, if_pos h1]
    by_cases h2 : ((canonicalAliasCandidate room).getD "").length = 0
    · rw [if_pos h2, if_pos h2]
      by_cases h3 : ((aliasCandidate room).getD "").length = 0
      · rw [if_pos h3, if_pos h3, updateNameFromMembers_eq]
        cases memberFallback (GetMembers room).1 (GetMembers room).2.firstMemberCache <;>
          simp
      · rw [if_neg h3, if_neg h3]
        simp
    · rw [if_neg h2, if_neg h2]
      simp
  · rw [if_neg h1, if_neg h1]
    simp

/-- A room resolved from a plain name event, used to instantiate C3. -/
def roomC3w : Room :=
  { NewRoom "!c3w" "@w:example.com" with
    State := [("m.room.name",
      [("", { type := "m.room.name", stateKey := "",
              content := [("name", Value.str "Lobby")] })])] }

/-- Witness for C3 at a concrete room with an empty title cache. -/
theorem c3_title_precedence_witness :
    (GetTitle roomC3w).map Prod.fst = titleSpec roomC3w ∧
    titleSpec roomC3w = some "Lobby" :=
  ⟨c3_title_precedence roomC3w rfl, rfl⟩

theorem updateNameCache_fix (room r2 : Room) (h : updateNameCache room = some r2) :
    updateNameCache r2 = some r2 := by
  by_cases hne : room.nameCache = ""
  · rw [updateNameCache_empty_cases room hne] at h
    by_cases h1 : ((nameCandidate room).getD "").length = 0
    · rw [if_pos h1] at h
      by_cases h2 : ((canonicalAliasCandidate room).getD "").length = 0
      · rw [if_pos h2] at h
        by_cases h3 : ((aliasCandidate room).getD "").length = 0
        · rw [if_pos h3, updateNameFromMembers_eq] at h
          rcases hyp : memberFallback (GetMembers room).1
              (GetMembers room).2.firstMemberCache with _ | v
          · rw [hyp] at h
            cases h
          · rw [hyp] at h
            obtain rfl : { (GetMembers room).2 with nameCache := v } = r2 := by
              injection h
            by_cases hv : v = ""
            · subst hv
              have hn2 : (GetMembers room).2.nameCache = "" := by
                rw [getMembers_nameCache room, hne]
              have hself2 : ({ (GetMembers room).2 with nameCache := "" } : Room)
                  = (GetMembers room).2 := room_set_nameCache_self _ hn2
              rw [hself2]
              have hlen : ¬ (GetMembers room).1.length ≤ 1 := by
                intro hle
                rw [memberFallback, if_pos hle] at hyp
                simp at hyp
              have hmc : ¬ (GetMembers room).2.memberCache.length = 0 := by
                rw [← getMembers_fst_eq room]
                omega
              rw [updateNameCache_empty_cases _ hn2,
                nameCandidate_congr room _ (getMembers_State room),
                canonicalAliasCandidate_congr room _ (getMembers_State room),
                aliasCandidate_congr room _ (getMembers_State room),
                if_pos h1, if_pos h2, if_pos h3,
                updateNameFromMembers_eq, getMembers_of_nonempty _ hmc]
              rw [getMembers_fst_eq room] at hyp
              simp [hyp, hself2]
            · apply updateNameCache_of_ne
              simpa using hv
        · rw [if_neg h3] at h
          obtain rfl : { room with nameCache := (aliasCandidate room).getD "" } = r2 := by
            injection h
          apply updateNameCache_of_ne
          show ¬ (aliasCandidate room).getD "" = ""
          intro he
          exact h3 (by rw [he]; rfl)
      · rw [if_neg h2] at h
        obtain rfl : { room with nameCache := (canonicalAliasCandidate room).getD "" } = r2 := by
          injection h
        apply updateNameCache_of_ne
        show ¬ (canonicalAliasCandidate room).getD "" = ""
        intro he
        exact h2 (by rw [he]; rfl)
    · rw [if_neg h1] at h
      obtain rfl : { room with nameCache := (nameCandidate room).getD "" } = r2 := by
        injection h
      apply updateNameCache_of_ne
      show ¬ (nameCandidate room).getD "" = ""
      intro he
      exact h1 (by rw [he]; rfl)
  · rw [updateNameCache_of_ne room hne] at h
    obtain rfl : room = r2 := by injection h
    exact updateNameCache_of_ne room hne

theorem getStateEvent_set_topicCache (room : Room) (v t k : String) :
    GetStateEvent { room with topicCache := v } t k = GetStateEvent room t k := rfl

theorem getTopic_stable (room : Room) :
    (GetTopic (GetTopic room).2).1 = (GetTopic room).1 := by
  by_cases ht : room.topicCache.length = 0
  · rcases hev : GetStateEvent room "m.room.topic" "" with _ | evt
    · have h1 : GetTopic room = (room.topicCache, room) := by
        unfold GetTopic
        rw [if_pos ht, hev]
      rw [h1]
      show (GetTopic room).1 = room.topicCache
      rw [h1]
    · have h1 : GetTopic room =
          (strOrEmpty (alGet evt.content "topic"),
            { room with topicCache := strOrEmpty (alGet evt.content "topic") }) := by
        unfold GetTopic
        rw [if_pos ht, hev]
      have h2 : GetTopic { room with topicCache := strOrEmpty (alGet evt.content "topic") } =
          (strOrEmpty (alGet evt.content "topic"),
            { room with topicCache := strOrEmpty (alGet evt.content "topic") }) := by
        by_cases hvl : (strOrEmpty (alGet evt.content "topic")).length = 0
        · simp [GetTopic, getStateEvent_set_topicCache, hev, hvl]
        · simp [GetTopic, hvl]
      rw [h1]
      show (GetTopic { room with topicCache := strOrEmpty (alGet evt.content "topic") }).1
          = strOrEmpty (alGet evt.content "topic")
      rw [h2]
  · have h1 : GetTopic room = (room.topicCache, room) := by
      unfold GetTopic
      rw [if_neg ht]
    rw [h1]
    show (GetTopic room).1 = room.topicCache
    rw [h1]

/-- C8: with no intervening `UpdateState`, a second `Title()` returns the
same title and leaves the room fixed, and a second `Topic()` returns the
same topic: once resolved, the caches are stable. -/
theorem c8_idempotent (room : Room) :
    (∀ s r2, GetTitle room = some (s, r2) → GetTitle r2 = some (s, r2)) ∧
    (GetTopic (GetTopic room).2).1 = (GetTopic room).1 := by
  constructor
  · intro s r2 hst
    unfold GetTitle at hst ⊢
    rcases hu : updateNameCache room with _ | r3
    · rw [hu] at hst
      cases hst
    · rw [hu] at hst
      have hst2 : some (r3.nameCache, r3) = some (s, r2) := hst
      have hs : r3.nameCache = s := congrArg Prod.fst (Option.some.inj hst2)
      have hr : r3 = r2 := congrArg Prod.snd (Option.some.inj hst2)
      subst hr
      subst hs
      rw [updateNameCache_fix room r3 hu]
      rfl
  · exact getTopic_stable room

/-- An empty fresh room, used to instantiate C8. -/
def roomC8 : Room := NewRoom "!c8" "@c8:example.com"

/-- The room after the first title resolution of `roomC8`. -/
def roomC8r : Room := { roomC8 with nameCache := "Empty room" }

/-- Witness for C8 at a concrete room: the second `Title()` call returns
the same resolved value on the cached state, and the topic is stable. -/
theorem c8_idempotent_witness :
    GetTitle roomC8r = some ("Empty room", roomC8r) ∧
    (GetTopic (GetTopic roomC8).2).1 = (GetTopic roomC8).1 := by
  have h := c8_idempotent roomC8
  exact ⟨h.1 "Empty room" roomC8r rfl, h.2⟩

/-! ## The history-fetch guard: acquisition under concurrency (C5)

`Room.LockHistory` runs `if room.fetchHistoryLock == nil { room.fetchHistoryLock
= &sync.Mutex{} }; room.fetchHistoryLock.Lock()`. Two execution contexts
running this body concurrently are modelled as a transition system under
sequentially consistent interleaving: each thread reads the field and
branches atomically, a creation writes a thread-unique fresh mutex into the
field, and a lock acquisition reads the field and succeeds only while that
mutex's held flag is clear (the blocking of `sync.Mutex.Lock`). -/

/-- Identity of a mutex object: the one pre-created by `NewRoom`, or the
one lazily created by thread 1 or thread 2 inside `LockHistory`. -/
inductive MutexId where
  | m0 : MutexId
  | m1 : MutexId
  | m2 : MutexId
deriving DecidableEq

/-- Program counter of one thread running the body of `LockHistory`:
about to test the field for nil, about to write a fresh mutex, about to
lock, or returned from `LockHistory`. -/
inductive LPC where
  | check : LPC
  | create : LPC
  | acquire : LPC
  | locked : LPC
deriving DecidableEq

/-- One thread: its program counter and the mutex it holds, if any. -/
structure ThreadSt where
  pc : LPC
  holding : Option MutexId
deriving DecidableEq

/-- The shared state: the `fetchHistoryLock` field, the held flag of each
mutex object, and the two threads. -/
structure LState where
  lockField : Option MutexId
  held0 : Bool
  held1 : Bool
  held2 : Bool
  t1 : ThreadSt
  t2 : ThreadSt
deriving DecidableEq

/-- The held flag of the given mutex. -/
def heldOf (s : LState) : MutexId → Bool
  | MutexId.m0 => s.held0
  | MutexId.m1 => s.held1
  | MutexId.m2 => s.held2

/-- Mark the given mutex held. -/
def setHeld (s : LState) : MutexId → LState
  | MutexId.m0 => { s with held0 := true }
  | MutexId.m1 => { s with held1 := true }
  | MutexId.m2 => { s with held2 := true }

/-- One interleaved step of the two threads running `LockHistory`. -/
inductive LStep : LState → LState → Prop where
  | check1 (s : LState) (m : MutexId) :
      s.t1.pc = LPC.check → s.lockField = some m →
      LStep s { s with t1 := { s.t1 with pc := LPC.acquire } }
  | checkNil1 (s : LState) :
      s.t1.pc = LPC.check → s.lockField = none →
      LStep s { s with t1 := { s.t1 with pc := LPC.create } }
  | create1 (s : LState) :
      s.t1.pc = LPC.create →
      LStep s { s with lockField := some MutexId.m1,
                       t1 := { s.t1 with pc := LPC.acquire } }
  | acquire1 (s : LState) (m : MutexId) :
      s.t1.pc = LPC.acquire → s.lockField = some m → heldOf s m = false →
      LStep s (setHeld { s with t1 := { pc := LPC.locked, holding := some m } } m)
  | check2 (s : LState) (m : MutexId) :
      s.t2.pc = LPC.check → s.lockField = some m →
      LStep s { s with t2 := { s.t2 with pc := LPC.acquire } }
  | checkNil2 (s : LState) :
      s.t2.pc = LPC.check → s.lockField = none →
      LStep s { s with t2 := { s.t2 with pc := LPC.create } }
  | create2 (s : LState) :
      s.t2.pc = LPC.create →
      LStep s { s with lockField := some MutexId.m2,
                       t2 := { s.t2 with pc := LPC.acquire } }
  | acquire2 (s : LState) (m : MutexId) :
      s.t2.pc = LPC.acquire → s.lockField = some m → heldOf s m = false →
      LStep s (setHeld { s with t2 := { pc := LPC.locked, holding := some m } } m)

/-- Reachability through interleaved steps from a given initial state. -/
inductive Reach (init : LState) : LState → Prop where
  | refl : Reach init init
  | step (s s2 : LState) : Reach init s → LStep s s2 → Reach init s2

/-- Both threads are past `LockHistory`, i.e. two concurrent holders. -/
def bothHold (s : LState) : Prop :=
  s.t1.pc = LPC.locked ∧ s.t2.pc = LPC.locked

/-- Initial state in which the guard already exists and is free, as
`NewRoom` guarantees by pre-creating `fetchHistoryLock`, with both threads
about to run `LockHistory`. -/
def lockInit : LState :=
  { lockField := some MutexId.m0, held0 := false, held1 := false, held2 := false,
    t1 := { pc := LPC.check, holding := none },
    t2 := { pc := LPC.check, holding := none } }

/-- Initial state in which the guard does not exist yet (a room built
without `NewRoom`), with both threads about to run `LockHistory`. -/
def raceInit : LState :=
  { lockInit with lockField := none }

/-- Inductive invariant for executions from `lockInit`. -/
def LInv (s : LState) : Prop :=
  s.lockField = some MutexId.m0 ∧
  s.held1 = false ∧ s.held2 = false ∧
  s.t1.pc ≠ LPC.create ∧ s.t2.pc ≠ LPC.create ∧
  ((s.t1.pc = LPC.locked ∨ s.t2.pc = LPC.locked) → s.held0 = true) ∧
  ¬(s.t1.pc = LPC.locked ∧ s.t2.pc = LPC.locked)

theorem LInv_lockInit : LInv lockInit := by
  refine ⟨rfl, rfl, rfl, ?_, ?_, ?_, ?_⟩ <;> simp [lockInit]

theorem LInv_step (s s2 : LState) (h : LInv s) (hs : LStep s s2) : LInv s2 := by
  obtain ⟨hf, h1, h2, hc1, hc2, hh, hb⟩ := h
  cases hs with
  | check1 m hpc hm =>
      exact ⟨hf, h1, h2, by simp, hc2, fun hor => hh (Or.inr (by simpa using hor)),
        by simp⟩
  | checkNil1 hpc hm =>
      rw [hf] at hm
      cases hm
  | create1 hpc => exact absurd hpc hc1
  | acquire1 m hpc hm hfree =>
      rw [hf] at hm
      obtain rfl : m = MutexId.m0 := by injection hm with h3; exact h3.symm
      have hnl : ¬(s.t1.pc = LPC.locked ∨ s.t2.pc = LPC.locked) := by
        intro hor
        have hheld := hh hor
        simp [heldOf, hheld] at hfree
      refine ⟨hf, h1, h2, by simp [setHeld], by simpa [setHeld] using hc2, ?_, ?_⟩
      · intro _
        simp [setHeld]
      · intro hboth
        exact hnl (Or.inr (by simpa [setHeld] using hboth.2))
  | check2 m hpc hm =>
      exact ⟨hf, h1, h2, hc1, by simp, fun hor => hh (Or.inl (by simpa using hor)),
        by simp⟩
  | checkNil2 hpc hm =>
      rw [hf] at hm
      cases hm
  | create2 hpc => exact absurd hpc hc2
  | acquire2 m hpc hm hfree =>
      rw [hf] at hm
      obtain rfl : m = MutexId.m0 := by injection hm with h3; exact h3.symm
      have hnl : ¬(s.t1.pc = LPC.locked ∨ s.t2.pc = LPC.locked) := by
        intro hor
        have hheld := hh hor
        simp [heldOf, hheld] at hfree
      refine ⟨hf, h1, h2, by simpa [setHeld] using hc1, by simp [setHeld], ?_, ?_⟩
      · intro _
        simp [setHeld]
      · intro hboth
        exact hnl (Or.inl (by simpa [setHeld] using hboth.1))

/-- C5 (amended): when the guard already exists before the two concurrent
`LockHistory` calls begin — as `NewRoom` guarantees by pre-creating the
mutex — every interleaving maintains mutual exclusion: at no reachable
state are both callers past `LockHistory`. -/
theorem c5_mutual_exclusion (s : LState) (h : Reach lockInit s) : ¬ bothHold s := by
  have hinv : LInv s := by
    induction h with
    | refl => exact LInv_lockInit
    | step s1 s2 hr hs ih => exact LInv_step s1 s2 ih hs
  exact fun hboth => hinv.2.2.2.2.2.2 ⟨hboth.1, hboth.2⟩

/-- Witness for C5 at the initial state itself. -/
theorem c5_mutual_exclusion_witness : ¬ bothHold lockInit :=
  c5_mutual_exclusion lockInit Reach.refl

/-- Race trace, step 1: thread 1 sees the nil field. -/
def lockRace1 : LState :=
  { raceInit with t1 := { pc := LPC.create, holding := none } }

/-- Race trace, step 2: thread 2 also sees the nil field. -/
def lockRace2 : LState :=
  { lockRace1 with t2 := { pc := LPC.create, holding := none } }

/-- Race trace, step 3: thread 1 writes its own fresh mutex. -/
def lockRace3 : LState :=
  { lockRace2 with lockField := some MutexId.m1,
                   t1 := { pc := LPC.acquire, holding := none } }

/-- Race trace, step 4: thread 1 locks its mutex and returns. -/
def lockRace4 : LState :=
  { lockRace3 with held1 := true,
                   t1 := { pc := LPC.locked, holding := some MutexId.m1 } }

/-- Race trace, step 5: thread 2 overwrites the field with its own fresh
mutex. -/
def lockRace5 : LState :=
  { lockRace4 with lockField := some MutexId.m2,
                   t2 := { pc := LPC.acquire, holding := none } }

/-- Race trace, final state: both threads are past `LockHistory`. -/
def raceBad : LState :=
  { lockField := some MutexId.m2, held0 := false, held1 := true, held2 := true,
    t1 := { pc := LPC.locked, holding := some MutexId.m1 },
    t2 := { pc := LPC.locked, holding := some MutexId.m2 } }

/-- C5 counterexample: when the guard must first be created on the
acquisition path (nil field), an interleaving exists in which each thread
creates its own mutex and both proceed — two concurrent holders, refuting
the claim for the lazily-created-guard case. -/
theorem c5_counterexample : Reach raceInit raceBad ∧ bothHold raceBad := by
  constructor
  · exact Reach.step lockRace5 raceBad
      (Reach.step lockRace4 lockRace5
        (Reach.step lockRace3 lockRace4
          (Reach.step lockRace2 lockRace3
            (Reach.step lockRace1 lockRace2
              (Reach.step raceInit lockRace1 Reach.refl
                (LStep.checkNil1 raceInit rfl rfl))
              (LStep.checkNil2 lockRace1 rfl rfl))
            (LStep.create1 lockRace2 rfl))
          (LStep.acquire1 lockRace3 MutexId.m1 rfl rfl rfl))
        (LStep.create2 lockRace4 rfl))
      (LStep.acquire2 lockRace5 MutexId.m2 rfl rfl rfl)
  · exact ⟨rfl, rfl⟩
